import Mathlib

/-!
Shallow embedding of the calculator pipeline of `RisGar/calculator`
(`src/main.rs`): a lexical scanner (`tokenise`), a shunting-yard converter
(`shunting_yard`) and an RPN evaluator (`evaluate_rpn`), composed by
`evaluate`.  Rust panics (`expect` / `panic!`) are modelled as `Except`
errors using the error taxonomy of the documentation
(`InvalidNumber`, `MismatchedParentheses`, `InvalidExpression`).
-/

namespace Calculator

/-- Equality of `Except` results is decidable (used to evaluate the pipeline
on concrete inputs inside proofs). -/
instance {ε α : Type} [DecidableEq ε] [DecidableEq α] : DecidableEq (Except ε α)
  | .ok a, .ok b =>
      if h : a = b then .isTrue (h ▸ rfl) else .isFalse fun hc => h (Except.ok.inj hc)
  | .error e, .error f =>
      if h : e = f then .isTrue (h ▸ rfl) else .isFalse fun hc => h (Except.error.inj hc)
  | .ok _, .error _ => .isFalse fun hc => Except.noConfusion hc
  | .error _, .ok _ => .isFalse fun hc => Except.noConfusion hc

/-- Exact-fragment model of IEEE-754 binary32 (`f32`): a finite value is held
as an exact rational; the special values `+∞`, `-∞` and `NaN` are explicit.
Rounding and signed zero are not modelled, so each operation below agrees
with `f32` exactly whenever the operands and the true result lie in the
modelled fragment (which covers every concrete value appearing in the
claims). -/
inductive F32 where
  | finite (q : ℚ)
  | posInf
  | negInf
  | nan
deriving DecidableEq

/-- IEEE negation (used to express subtraction as addition of the negation,
which is exact). -/
def F32.neg : F32 → F32
  | .finite q => .finite (-q)
  | .posInf => .negInf
  | .negInf => .posInf
  | .nan => .nan

/-- `f32` addition on the exact fragment; infinity/NaN cases follow IEEE-754. -/
def fadd : F32 → F32 → F32
  | .nan, _ => .nan
  | _, .nan => .nan
  | .posInf, .negInf => .nan
  | .negInf, .posInf => .nan
  | .posInf, _ => .posInf
  | _, .posInf => .posInf
  | .negInf, _ => .negInf
  | _, .negInf => .negInf
  | .finite a, .finite b => .finite (a + b)

/-- `f32` subtraction: `a - b` is IEEE-identical to `a + (-b)`. -/
def fsub (a b : F32) : F32 := fadd a (F32.neg b)

/-- `f32` multiplication on the exact fragment; infinity/NaN cases follow
IEEE-754 (`∞ * 0` is NaN). -/
def fmul : F32 → F32 → F32
  | .nan, _ => .nan
  | _, .nan => .nan
  | .posInf, .posInf => .posInf
  | .posInf, .negInf => .negInf
  | .negInf, .posInf => .negInf
  | .negInf, .negInf => .posInf
  | .posInf, .finite b => if 0 < b then .posInf else if b < 0 then .negInf else .nan
  | .finite a, .posInf => if 0 < a then .posInf else if a < 0 then .negInf else .nan
  | .negInf, .finite b => if 0 < b then .negInf else if b < 0 then .posInf else .nan
  | .finite a, .negInf => if 0 < a then .negInf else if a < 0 then .posInf else .nan
  | .finite a, .finite b => .finite (a * b)

/-- `f32` division on the exact fragment; IEEE-754: a nonzero finite value
divided by (positive) zero is a signed infinity, `0 / 0` is NaN,
`∞ / ∞` is NaN, finite `/ ∞` is zero. -/
def fdiv : F32 → F32 → F32
  | .nan, _ => .nan
  | _, .nan => .nan
  | .posInf, .posInf => .nan
  | .posInf, .negInf => .nan
  | .negInf, .posInf => .nan
  | .negInf, .negInf => .nan
  | .posInf, .finite b => if b < 0 then .negInf else .posInf
  | .negInf, .finite b => if b < 0 then .posInf else .negInf
  | .finite _, .posInf => .finite 0
  | .finite _, .negInf => .finite 0
  | .finite a, .finite b =>
      if b = 0 then (if 0 < a then .posInf else if a < 0 then .negInf else .nan)
      else .finite (a / b)

/-- `f32` `powf` on the exact fragment.  IEEE-754: `x ^ 0 = 1` for every `x`
(NaN included) and `1 ^ y = 1` for every `y`; an integer exponent gives the
exact power (`0` to a negative power is `+∞`).  A non-integer exponent, or an
infinite/NaN base or exponent other than the cases above, generally has an
irrational or rounding-dependent value and lies outside the exact fragment;
the model maps those to NaN (no claim exercises them). -/
def fpow (a b : F32) : F32 :=
  if b = .finite 0 then .finite 1
  else if a = .finite 1 then .finite 1
  else
    match a, b with
    | .finite x, .finite y =>
        if y.den = 1 then
          (if 0 ≤ y.num then .finite (x ^ y.num.toNat)
           else if x = 0 then .posInf
           else .finite (x ^ y.num))
        else .nan
    | _, _ => .nan

/-- `enum Operator` of `src/main.rs`. -/
inductive Operator where
  | Add
  | Subtract
  | Multiply
  | Divide
  | Power
deriving DecidableEq

/-- `Operator::precedence` of `src/main.rs` (`i32` result). -/
def Operator.precedence : Operator → Int
  | .Add | .Subtract => 1
  | .Multiply | .Divide => 2
  | .Power => 3

/-- `enum Associativity` of `src/main.rs`. -/
inductive Associativity where
  | Left
  | Right
deriving DecidableEq

/-- `Operator::associativity` of `src/main.rs`. -/
def Operator.associativity : Operator → Associativity
  | .Add | .Subtract | .Multiply | .Divide => .Left
  | .Power => .Right

/-- `Associativity::is_left` of `src/main.rs`. -/
def Associativity.is_left (a : Associativity) : Bool := a == Associativity.Left

/-- `Associativity::is_right` of `src/main.rs`. -/
def Associativity.is_right (a : Associativity) : Bool := a == Associativity.Right

/-- `enum Parenthesis` of `src/main.rs`. -/
inductive Parenthesis where
  | Left
  | Right
deriving DecidableEq

/-- `enum Token` of `src/main.rs`; the `f32` payload of `Number` is the
`F32` model. -/
inductive Token where
  | Number (n : F32)
  | Operator (op : Operator)
  | Parenthesis (p : Parenthesis)
deriving DecidableEq

/-- The error taxonomy of the documentation; each Rust panic message maps to
one variant (`"Error: Invalid number in expression"` → `InvalidNumber`,
`"Error: Mismatched parentheses"` → `MismatchedParentheses`,
`"Error: Invalid expression"` → `InvalidExpression`,
`"Error: No expression provided"` → `NoExpression`). -/
inductive EvalError where
  | NoExpression
  | InvalidNumber
  | MismatchedParentheses
  | InvalidExpression
deriving DecidableEq

/-- Value of a digit string, most significant first (auxiliary to the
numeric-literal model). -/
def digitsToNat (cs : List Char) : ℕ :=
  cs.foldl (fun a c => 10 * a + (c.toNat - '0'.toNat)) 0

/-- Whether a character list is a numeric literal accepted by Rust's `f32`
parsing.  Modelled from the documented grammar of `f32::from_str`
(`Digit+ | Digit+ '.' Digit* | Digit* '.' Digit+`), restricted to the
character lists the scanner can buffer (digits, `'.'`, `','`): accepted iff
every character is a digit or `'.'` (in particular `','` is rejected), there
is at most one `'.'`, and there is at least one digit. -/
def isF32Lexeme (cs : List Char) : Bool :=
  cs.all (fun c => c.isDigit || c = '.')
    && decide (cs.count '.' ≤ 1)
    && cs.any (fun c => c.isDigit)

/-- `number_buffer.parse::<f32>()` of `src/main.rs`, modelled from the
documented grammar of `f32::from_str` restricted to scanner-reachable
buffers (see `isF32Lexeme`); the value is the exact rational denoted by the
decimal literal. -/
def parseF32 (cs : List Char) : Option ℚ :=
  if isF32Lexeme cs then
    let intPart := cs.takeWhile (fun c => c ≠ '.')
    let fracPart := (cs.dropWhile (fun c => c ≠ '.')).drop 1
    some ((digitsToNat intPart : ℚ) + (digitsToNat fracPart : ℚ) / (10 : ℚ) ^ fracPart.length)
  else none

/-- `empty_number_buffer` of `src/main.rs`: if the buffer is non-empty,
parse it and append a `Number` token (panic `InvalidNumber` on parse
failure) and clear the buffer. -/
def empty_number_buffer (tokens : List Token) (number_buffer : List Char) :
    Except EvalError (List Token × List Char) :=
  if number_buffer.isEmpty then .ok (tokens, number_buffer)
  else
    match parseF32 number_buffer with
    | some q => .ok (tokens ++ [Token.Number (F32.finite q)], [])
    | none => .error .InvalidNumber

/-- `push_non_number` of `src/main.rs`: empty the number buffer, then push
the (non-`Number`) token. -/
def push_non_number (tokens : List Token) (number_buffer : List Char) (token : Token) :
    Except EvalError (List Token × List Char) := do
  let (tokens', buffer') ← empty_number_buffer tokens number_buffer
  .ok (tokens' ++ [token], buffer')

/-- The buffer character class of `tokenise` of `src/main.rs`: the match arm
`'0'..='9' | '.' | ','` (note `Char.isDigit` is exactly the range
`'0'..='9'`). -/
def isBufferChar (c : Char) : Bool := c.isDigit || c = '.' || c = ','

/-- One character of the `str.chars().for_each` match in `tokenise` of
`src/main.rs`: digits and separators accumulate into the buffer, recognised
symbols go through `push_non_number`, anything else is skipped (`_ => ()`). -/
def tokenise_step (tokens : List Token) (number_buffer : List Char) (c : Char) :
    Except EvalError (List Token × List Char) :=
  if isBufferChar c then .ok (tokens, number_buffer ++ [c])
  else if c = '+' then push_non_number tokens number_buffer (.Operator .Add)
  else if c = '-' then push_non_number tokens number_buffer (.Operator .Subtract)
  else if c = '*' then push_non_number tokens number_buffer (.Operator .Multiply)
  else if c = '/' ∨ c = ':' then push_non_number tokens number_buffer (.Operator .Divide)
  else if c = '^' then push_non_number tokens number_buffer (.Operator .Power)
  else if c = '(' then push_non_number tokens number_buffer (.Parenthesis .Left)
  else if c = ')' then push_non_number tokens number_buffer (.Parenthesis .Right)
  else .ok (tokens, number_buffer)

/-- The character fold of `tokenise` of `src/main.rs`. -/
def tokenise_go : List Char → List Token → List Char → Except EvalError (List Token × List Char)
  | [], tokens, number_buffer => .ok (tokens, number_buffer)
  | c :: cs, tokens, number_buffer => do
      let (tokens', buffer') ← tokenise_step tokens number_buffer c
      tokenise_go cs tokens' buffer'

/-- `tokenise` of `src/main.rs`: fold over the characters, then flush the
remaining buffer. -/
def tokenise (s : String) : Except EvalError (List Token) := do
  let (tokens, number_buffer) ← tokenise_go s.toList [] []
  let (tokens', _) ← empty_number_buffer tokens number_buffer
  .ok tokens'

/-- The pop condition of the operator case of `shunting_yard` of
`src/main.rs`: `(operator.associativity().is_left() && operator.precedence()
<= top.precedence()) || (operator.associativity().is_right() &&
operator.precedence() < top.precedence())`. -/
def shouldPop (operator top : Operator) : Bool :=
  (operator.associativity.is_left && decide (operator.precedence ≤ top.precedence))
    || (operator.associativity.is_right && decide (operator.precedence < top.precedence))

/-- The `while let Some(Token::Operator(top)) = stack.last()` loop of
`shunting_yard` of `src/main.rs`: returns the popped tokens (in pop order)
and the remaining stack.  The stack's top is the head of the list. -/
def popWhile (operator : Operator) : List Token → List Token × List Token
  | Token.Operator top :: rest =>
      if shouldPop operator top then
        let (popped, stack') := popWhile operator rest
        (Token.Operator top :: popped, stack')
      else ([], Token.Operator top :: rest)
  | stack => ([], stack)

/-- The `Parenthesis::Right` loop of `shunting_yard` of `src/main.rs`: pop
until a `Parenthesis(Left)` is popped and discarded; popping from an empty
stack panics `MismatchedParentheses`.  Returns the tokens pushed to output
(in pop order) and the remaining stack. -/
def popUntilLeft : List Token → Except EvalError (List Token × List Token)
  | [] => .error .MismatchedParentheses
  | popped :: rest =>
      if popped = Token.Parenthesis .Left then .ok ([], rest)
      else do
        let (out, stack') ← popUntilLeft rest
        .ok (popped :: out, stack')

/-- One token of the `tokens.iter().for_each` match of `shunting_yard` of
`src/main.rs`, acting on the output sequence and the operator stack. -/
def sy_step (token : Token) (output stack : List Token) :
    Except EvalError (List Token × List Token) :=
  match token with
  | Token.Operator operator =>
      let (popped, stack') := popWhile operator stack
      .ok (output ++ popped, token :: stack')
  | Token.Parenthesis .Left => .ok (output, token :: stack)
  | Token.Parenthesis .Right => do
      let (popped, stack') ← popUntilLeft stack
      .ok (output ++ popped, stack')
  | Token.Number _ => .ok (output ++ [token], stack)

/-- The token fold of `shunting_yard` of `src/main.rs` (before the final
drain). -/
def sy_process : List Token → List Token → List Token → Except EvalError (List Token × List Token)
  | [], output, stack => .ok (output, stack)
  | token :: rest, output, stack => do
      let (output', stack') ← sy_step token output stack
      sy_process rest output' stack'

/-- `shunting_yard` of `src/main.rs`: process every token, then drain the
stack into the output (top first); note the drain pushes whatever remains,
parentheses included. -/
def shunting_yard (tokens : List Token) : Except EvalError (List Token) := do
  let (output, stack) ← sy_process tokens [] []
  .ok (output ++ stack)

/-- The operator dispatch of `evaluate_rpn` of `src/main.rs`:
`left + right`, `left - right`, `left * right`, `left / right`,
`left.powf(right)`. -/
def applyOp (operator : Operator) (left right : F32) : F32 :=
  match operator with
  | .Add => fadd left right
  | .Subtract => fsub left right
  | .Multiply => fmul left right
  | .Divide => fdiv left right
  | .Power => fpow left right

/-- One token of the `for_each` match of `evaluate_rpn` of `src/main.rs`:
push a number; for an operator pop `right` then `left` (panic
`InvalidExpression` on underflow) and push `left ∘ right`; panic
`InvalidExpression` on a parenthesis.  The stack's top is the head. -/
def rpn_step (stack : List F32) (token : Token) : Except EvalError (List F32) :=
  match token with
  | Token.Number n => .ok (n :: stack)
  | Token.Operator operator =>
      match stack with
      | right :: left :: rest => .ok (applyOp operator left right :: rest)
      | _ => .error .InvalidExpression
  | Token.Parenthesis _ => .error .InvalidExpression

/-- The token fold of `evaluate_rpn` of `src/main.rs`. -/
def rpn_go : List Token → List F32 → Except EvalError (List F32)
  | [], stack => .ok stack
  | token :: rest, stack => do
      let stack' ← rpn_step stack token
      rpn_go rest stack'

/-- `evaluate_rpn` of `src/main.rs`: fold the tokens, then
`stack.pop().expect(...)` — return the topmost value of the final stack,
panicking `InvalidExpression` when it is empty. -/
def evaluate_rpn (tokens : List Token) : Except EvalError F32 := do
  let stack ← rpn_go tokens []
  match stack with
  | top :: _ => .ok top
  | [] => .error .InvalidExpression

/-- The pipeline `evaluate_rpn(shunting_yard(tokenise(expression)))` of
`src/main.rs` (`main`, and `evaluate_expression` of the test module). -/
def evaluate (s : String) : Except EvalError F32 := do
  evaluate_rpn (← shunting_yard (← tokenise s))

/-- The symbol table of the scanner read off the match arms of `tokenise` of
`src/main.rs`: the token a recognised operator/parenthesis character maps
to, `none` for every character the scanner skips.  (Used only to state
claims about `tokenise_step`.) -/
def symToken (c : Char) : Option Token :=
  if c = '+' then some (.Operator .Add)
  else if c = '-' then some (.Operator .Subtract)
  else if c = '*' then some (.Operator .Multiply)
  else if c = '/' ∨ c = ':' then some (.Operator .Divide)
  else if c = '^' then some (.Operator .Power)
  else if c = '(' then some (.Parenthesis .Left)
  else if c = ')' then some (.Parenthesis .Right)
  else none

/-- The stack invariant of the shunting-yard converter: every token on the
operator stack is an `Operator` or a `Parenthesis Left`. -/
def StackOK (stack : List Token) : Prop :=
  ∀ t ∈ stack, (∃ operator, t = Token.Operator operator) ∨ t = Token.Parenthesis Parenthesis.Left

/-- Follows the spec's words (error taxonomy of the evaluator): running
height of the value stack along a postfix token sequence — a `Number` pushes
one value, an `Operator` needs at least two and replaces them by one, a
`Parenthesis` is rejected outright (`none` marks failure).  Failure of the
evaluator should then be exactly `none` (underflow or parenthesis) or a
final height of `0` (empty final stack). -/
def specRpnCount : List Token → ℕ → Option ℕ
  | [], n => some n
  | Token.Number _ :: rest, n => specRpnCount rest (n + 1)
  | Token.Operator _ :: rest, n => if 2 ≤ n then specRpnCount rest (n - 1) else none
  | Token.Parenthesis _ :: _, _ => none

/-! Helper lemmas. -/

theorem except_bind_ok {ε α β : Type} (a : α) (f : α → Except ε β) :
    (Except.ok a >>= f : Except ε β) = f a := rfl

theorem except_bind_error {ε α β : Type} (e : ε) (f : α → Except ε β) :
    (Except.error e >>= f : Except ε β) = Except.error e := rfl

theorem toList_append (s t : String) : (s ++ t).toList = s.toList ++ t.toList := rfl

theorem parseF32_nil : parseF32 [] = none := rfl

theorem parseF32_isBufferChar {cs : List Char} {q : ℚ} (h : parseF32 cs = some q) :
    ∀ c ∈ cs, isBufferChar c = true := by
  intro c hc
  have hlex : isF32Lexeme cs = true := by
    by_contra hfalse
    simp only [Bool.not_eq_true] at hfalse
    simp [parseF32, hfalse] at h
  have hall : cs.all (fun c => c.isDigit || c = '.') = true := by
    have h1 := (Bool.and_eq_true _ _).mp hlex
    exact ((Bool.and_eq_true _ _).mp h1.1).1
  have hcd := List.all_eq_true.mp hall c hc
  simp only [Bool.or_eq_true, decide_eq_true_eq] at hcd
  rcases hcd with hd | hdot
  · simp [isBufferChar, hd]
  · simp [isBufferChar, hdot]

theorem tokenise_step_buffer {c : Char} (h : isBufferChar c = true)
    (tokens : List Token) (buf : List Char) :
    tokenise_step tokens buf c = .ok (tokens, buf ++ [c]) := by
  simp [tokenise_step, h]

theorem tokenise_step_symbol {c : Char} {t : Token} (hsym : symToken c = some t)
    (tokens : List Token) {buf : List Char} {q : ℚ} (hq : parseF32 buf = some q) :
    tokenise_step tokens buf c = .ok (tokens ++ [Token.Number (F32.finite q), t], []) := by
  have hbuf : buf.isEmpty = false := by
    cases buf with
    | nil => simp [parseF32, isF32Lexeme] at hq
    | cons _ _ => rfl
  unfold symToken at hsym
  split_ifs at hsym with h1 h2 h3 h4 h5 h6 h7
  · subst h1; injection hsym with ht; subst ht
    simp +decide [tokenise_step, isBufferChar, push_non_number, empty_number_buffer, hbuf, hq,
      except_bind_ok]
  · subst h2; injection hsym with ht; subst ht
    simp +decide [tokenise_step, isBufferChar, push_non_number, empty_number_buffer, hbuf, hq,
      except_bind_ok]
  · subst h3; injection hsym with ht; subst ht
    simp +decide [tokenise_step, isBufferChar, push_non_number, empty_number_buffer, hbuf, hq,
      except_bind_ok]
  · injection hsym with ht; subst ht
    rcases h4 with h4 | h4 <;>
      (subst h4
       simp +decide [tokenise_step, isBufferChar, push_non_number, empty_number_buffer, hbuf, hq,
         except_bind_ok])
  · subst h5; injection hsym with ht; subst ht
    simp +decide [tokenise_step, isBufferChar, push_non_number, empty_number_buffer, hbuf, hq,
      except_bind_ok]
  · subst h6; injection hsym with ht; subst ht
    simp +decide [tokenise_step, isBufferChar, push_non_number, empty_number_buffer, hbuf, hq,
      except_bind_ok]
  · subst h7; injection hsym with ht; subst ht
    simp +decide [tokenise_step, isBufferChar, push_non_number, empty_number_buffer, hbuf, hq,
      except_bind_ok]

theorem tokenise_step_symbol_nil {c : Char} {t : Token} (hsym : symToken c = some t)
    (tokens : List Token) :
    tokenise_step tokens [] c = .ok (tokens ++ [t], []) := by
  unfold symToken at hsym
  split_ifs at hsym with h1 h2 h3 h4 h5 h6 h7
  · subst h1; injection hsym with ht; subst ht
    simp +decide [tokenise_step, isBufferChar, push_non_number, empty_number_buffer,
      except_bind_ok]
  · subst h2; injection hsym with ht; subst ht
    simp +decide [tokenise_step, isBufferChar, push_non_number, empty_number_buffer,
      except_bind_ok]
  · subst h3; injection hsym with ht; subst ht
    simp +decide [tokenise_step, isBufferChar, push_non_number, empty_number_buffer,
      except_bind_ok]
  · injection hsym with ht; subst ht
    rcases h4 with h4 | h4 <;>
      (subst h4
       simp +decide [tokenise_step, isBufferChar, push_non_number, empty_number_buffer,
         except_bind_ok])
  · subst h5; injection hsym with ht; subst ht
    simp +decide [tokenise_step, isBufferChar, push_non_number, empty_number_buffer,
      except_bind_ok]
  · subst h6; injection hsym with ht; subst ht
    simp +decide [tokenise_step, isBufferChar, push_non_number, empty_number_buffer,
      except_bind_ok]
  · subst h7; injection hsym with ht; subst ht
    simp +decide [tokenise_step, isBufferChar, push_non_number, empty_number_buffer,
      except_bind_ok]

theorem tokenise_step_skip {c : Char} (hbufc : isBufferChar c = false)
    (hsym : symToken c = none) (tokens : List Token) (buf : List Char) :
    tokenise_step tokens buf c = .ok (tokens, buf) := by
  unfold symToken at hsym
  split_ifs at hsym with h1 h2 h3 h4 h5 h6 h7
  push_neg at h4
  simp [tokenise_step, hbufc, h1, h2, h3, h4.1, h4.2, h5, h6, h7]

theorem tokenise_go_append : ∀ (xs ys : List Char) (tokens : List Token) (buf : List Char),
    tokenise_go (xs ++ ys) tokens buf = do
      let (tokens', buf') ← tokenise_go xs tokens buf
      tokenise_go ys tokens' buf'
  | [], ys, tokens, buf => by simp [tokenise_go, except_bind_ok]
  | x :: xs, ys, tokens, buf => by
      simp only [List.cons_append, tokenise_go]
      cases h : tokenise_step tokens buf x with
      | ok p =>
          cases p with
          | mk t b => simp [except_bind_ok, tokenise_go_append xs ys t b]
      | error e => simp [except_bind_error]

theorem tokenise_go_buffer : ∀ (cs : List Char) (tokens : List Token) (buf : List Char),
    (∀ c ∈ cs, isBufferChar c = true) →
    tokenise_go cs tokens buf = .ok (tokens, buf ++ cs)
  | [], tokens, buf, _ => by simp [tokenise_go]
  | c :: cs, tokens, buf, h => by
      have hc := h c (List.mem_cons_self c cs)
      have hrest : ∀ x ∈ cs, isBufferChar x = true :=
        fun x hx => h x (List.mem_cons_of_mem c hx)
      simp [tokenise_go, tokenise_step_buffer hc, except_bind_ok,
        tokenise_go_buffer cs tokens (buf ++ [c]) hrest]

theorem tokenise_go_lit {cs : List Char} {q : ℚ} (hq : parseF32 cs = some q)
    (rest : List Char) (tokens : List Token) :
    tokenise_go (cs ++ rest) tokens [] = tokenise_go rest tokens cs := by
  rw [tokenise_go_append]
  rw [tokenise_go_buffer cs tokens [] (parseF32_isBufferChar hq)]
  simp [except_bind_ok]

theorem tokenise_go_sym {c : Char} {t : Token} (hsym : symToken c = some t)
    {buf : List Char} {q : ℚ} (hq : parseF32 buf = some q)
    (rest : List Char) (tokens : List Token) :
    tokenise_go (c :: rest) tokens buf =
      tokenise_go rest (tokens ++ [Token.Number (F32.finite q), t]) [] := by
  simp [tokenise_go, tokenise_step_symbol hsym tokens hq, except_bind_ok]

theorem tokenise_go_sym_nil {c : Char} {t : Token} (hsym : symToken c = some t)
    (rest : List Char) (tokens : List Token) :
    tokenise_go (c :: rest) tokens [] = tokenise_go rest (tokens ++ [t]) [] := by
  simp [tokenise_go, tokenise_step_symbol_nil hsym tokens, except_bind_ok]

theorem parseF32_ne_nil {cs : List Char} {q : ℚ} (h : parseF32 cs = some q) :
    cs.isEmpty = false := by
  cases cs with
  | nil => simp [parseF32, isF32Lexeme] at h
  | cons _ _ => rfl

theorem tokenise_go_final {cs : List Char} {q : ℚ} (hq : parseF32 cs = some q)
    (tokens : List Token) :
    tokenise_go cs tokens [] = .ok (tokens, cs) := by
  have h := tokenise_go_buffer cs tokens [] (parseF32_isBufferChar hq)
  simpa using h

theorem popWhile_append (operator : Operator) :
    ∀ stack : List Token, (popWhile operator stack).1 ++ (popWhile operator stack).2 = stack
  | [] => rfl
  | Token.Number _ :: _ => rfl
  | Token.Parenthesis _ :: _ => rfl
  | Token.Operator top :: rest => by
      by_cases h : shouldPop operator top
      · simp only [popWhile, h, if_true, List.cons_append]
        exact congrArg (Token.Operator top :: ·) (popWhile_append operator rest)
      · simp [popWhile, h]

theorem popWhile_popped (operator : Operator) :
    ∀ (stack : List Token) (t : Token), t ∈ (popWhile operator stack).1 →
      ∃ top, t = Token.Operator top ∧ shouldPop operator top = true
  | [], t, h => absurd h (by simp [popWhile])
  | Token.Number _ :: _, t, h => absurd h (by simp [popWhile])
  | Token.Parenthesis _ :: _, t, h => absurd h (by simp [popWhile])
  | Token.Operator top :: rest, t, h => by
      by_cases hp : shouldPop operator top
      · simp only [popWhile, hp, if_true, List.mem_cons] at h
        rcases h with h | h
        · exact ⟨top, h, hp⟩
        · exact popWhile_popped operator rest t h
      · simp [popWhile, hp] at h

theorem popWhile_stop (operator : Operator) :
    ∀ (stack : List Token) (top : Operator) (rest : List Token),
      (popWhile operator stack).2 = Token.Operator top :: rest →
      shouldPop operator top = false
  | [], top, rest, h => by simp [popWhile] at h
  | Token.Number _ :: _, top, rest, h => by simp [popWhile] at h
  | Token.Parenthesis _ :: _, top, rest, h => by simp [popWhile] at h
  | Token.Operator t :: s, top, rest, h => by
      by_cases hp : shouldPop operator t
      · simp only [popWhile, hp, if_true] at h
        exact popWhile_stop operator s top rest h
      · have hp' : shouldPop operator t = false := by simpa using hp
        simp only [popWhile, hp', Bool.false_eq_true, if_false] at h
        simp only [Token.Operator.injEq, List.cons.injEq] at h
        rcases h with ⟨h1, h2⟩
        subst h1
        exact hp'

theorem popUntilLeft_subset :
    ∀ (stack popped stack' : List Token), popUntilLeft stack = .ok (popped, stack') →
      ∀ t ∈ stack', t ∈ stack
  | [], popped, stack', h => by simp [popUntilLeft] at h
  | u :: rest, popped, stack', h => by
      by_cases hu : u = Token.Parenthesis .Left
      · simp only [popUntilLeft, hu, if_true] at h
        cases h
        intro t ht
        exact List.mem_cons_of_mem _ ht
      · simp only [popUntilLeft, hu, if_false] at h
        cases hrec : popUntilLeft rest with
        | error e => rw [hrec] at h; exact absurd h (by simp [except_bind_error])
        | ok p =>
            cases p with
            | mk out st =>
                rw [hrec] at h
                simp only [except_bind_ok, Except.ok.injEq, Prod.mk.injEq] at h
                rcases h with ⟨h1, h2⟩
                intro t ht
                refine List.mem_cons_of_mem _ (popUntilLeft_subset rest out st hrec t ?_)
                rwa [h2]

theorem sy_step_preserves {token : Token} {output stack output' stack' : List Token}
    (hok : StackOK stack) (h : sy_step token output stack = .ok (output', stack')) :
    StackOK stack' := by
  cases token with
  | Number n =>
      simp only [sy_step] at h
      cases h
      exact hok
  | Operator operator =>
      simp only [sy_step] at h
      cases h
      intro t ht
      rcases List.mem_cons.mp ht with h | h
      · exact Or.inl ⟨operator, h⟩
      · have hmem : t ∈ stack := by
          rw [← popWhile_append operator stack]
          exact List.mem_append_right _ h
        exact hok t hmem
  | Parenthesis p =>
      cases p with
      | Left =>
          simp only [sy_step] at h
          cases h
          intro t ht
          rcases List.mem_cons.mp ht with h | h
          · exact Or.inr h
          · exact hok t h
      | Right =>
          simp only [sy_step] at h
          cases hrec : popUntilLeft stack with
          | error e => rw [hrec] at h; exact absurd h (by simp [except_bind_error])
          | ok p =>
              cases p with
              | mk out st =>
                  rw [hrec] at h
                  simp only [except_bind_ok, Except.ok.injEq, Prod.mk.injEq] at h
                  rcases h with ⟨h1, h2⟩
                  intro t ht
                  refine hok t (popUntilLeft_subset stack out st hrec t ?_)
                  rwa [h2]

theorem sy_process_preserves :
    ∀ (pre : List Token) {output stack output' stack' : List Token},
      StackOK stack → sy_process pre output stack = .ok (output', stack') →
      StackOK stack'
  | [], output, stack, output', stack', hok, h => by
      simp only [sy_process] at h
      cases h
      exact hok
  | token :: rest, output, stack, output', stack', hok, h => by
      simp only [sy_process] at h
      cases hstep : sy_step token output stack with
      | error e => rw [hstep] at h; exact absurd h (by simp [except_bind_error])
      | ok p =>
          cases p with
          | mk o1 s1 =>
              rw [hstep] at h
              simp only [except_bind_ok] at h
              exact sy_process_preserves rest (sy_step_preserves hok hstep) h

theorem rpn_go_count :
    ∀ (tokens : List Token) (stack : List F32),
      (specRpnCount tokens stack.length = none →
        rpn_go tokens stack = .error EvalError.InvalidExpression) ∧
      (∀ n, specRpnCount tokens stack.length = some n →
        ∃ s, rpn_go tokens stack = .ok s ∧ s.length = n)
  | [], stack => by
      refine ⟨fun h => by simp [specRpnCount] at h, fun n hn => ⟨stack, rfl, ?_⟩⟩
      simpa [specRpnCount] using hn
  | Token.Number m :: rest, stack => by
      constructor
      · intro h
        simp only [specRpnCount] at h
        have := (rpn_go_count rest (m :: stack)).1 (by simpa using h)
        simpa [rpn_go, rpn_step, except_bind_ok] using this
      · intro n hn
        simp only [specRpnCount] at hn
        obtain ⟨s, hs, hlen⟩ := (rpn_go_count rest (m :: stack)).2 n (by simpa using hn)
        exact ⟨s, by simpa [rpn_go, rpn_step, except_bind_ok] using hs, hlen⟩
  | Token.Operator operator :: rest, stack => by
      match stack with
      | [] =>
          refine ⟨fun _ => by simp [rpn_go, rpn_step, except_bind_error], fun n hn => ?_⟩
          simp [specRpnCount] at hn
      | [x] =>
          refine ⟨fun _ => by simp [rpn_go, rpn_step, except_bind_error], fun n hn => ?_⟩
          simp [specRpnCount] at hn
      | right :: left :: s =>
          constructor
          · intro h
            simp only [specRpnCount, List.length_cons] at h
            have h2 : (2 : ℕ) ≤ s.length + 1 + 1 := by omega
            rw [if_pos h2] at h
            have := (rpn_go_count rest (applyOp operator left right :: s)).1
              (by simpa using h)
            simpa [rpn_go, rpn_step, except_bind_ok] using this
          · intro n hn
            simp only [specRpnCount, List.length_cons] at hn
            have h2 : (2 : ℕ) ≤ s.length + 1 + 1 := by omega
            rw [if_pos h2] at hn
            obtain ⟨s', hs, hlen⟩ := (rpn_go_count rest (applyOp operator left right :: s)).2 n
              (by simpa using hn)
            exact ⟨s', by simpa [rpn_go, rpn_step, except_bind_ok] using hs, hlen⟩
  | Token.Parenthesis p :: rest, stack => by
      refine ⟨fun _ => by simp [rpn_go, rpn_step, except_bind_error], fun n hn => ?_⟩
      simp [specRpnCount] at hn

theorem rpn_go_error_invalid :
    ∀ (tokens : List Token) (stack : List F32) (e : EvalError),
      rpn_go tokens stack = .error e → e = EvalError.InvalidExpression
  | [], stack, e, h => by simp [rpn_go] at h
  | token :: rest, stack, e, h => by
      simp only [rpn_go] at h
      cases token with
      | Number m =>
          simp only [rpn_step, except_bind_ok] at h
          exact rpn_go_error_invalid rest (m :: stack) e h
      | Operator operator =>
          match stack with
          | [] =>
              have h' : EvalError.InvalidExpression = e := by
                simpa [rpn_step, except_bind_error] using h
              exact h'.symm
          | [x] =>
              have h' : EvalError.InvalidExpression = e := by
                simpa [rpn_step, except_bind_error] using h
              exact h'.symm
          | right :: left :: s =>
              simp only [rpn_step, except_bind_ok] at h
              exact rpn_go_error_invalid rest (applyOp operator left right :: s) e h
      | Parenthesis p =>
          have h' : EvalError.InvalidExpression = e := by
            simpa [rpn_step, except_bind_error] using h
          exact h'.symm

/-! The claims. -/

/-- C2, counterexample: `evaluate "(1+2"` does fail, but with
`InvalidExpression` (the unclosed `Left` parenthesis is drained into the
output and rejected by the evaluator), not with `MismatchedParentheses`;
so the claim that both inputs fail with `MismatchedParentheses` is false. -/
theorem unclosed_paren_counterexample :
    evaluate "(1+2" = .error EvalError.InvalidExpression ∧
    EvalError.InvalidExpression ≠ EvalError.MismatchedParentheses := by
  constructor
  · simp +decide [evaluate, tokenise, tokenise_go, tokenise_step, push_non_number,
      empty_number_buffer, parseF32, isF32Lexeme, isBufferChar, digitsToNat, shunting_yard,
      sy_process, sy_step, popWhile, popUntilLeft, shouldPop, evaluate_rpn,
      rpn_go, rpn_step, applyOp, fadd, fsub, fmul, fdiv, fpow, F32.neg,
      Operator.precedence, Operator.associativity, Associativity.is_left,
      Associativity.is_right, except_bind_ok, except_bind_error]
  · decide

/-- C2 (amended): evaluating `"(1+2"` and `"1+2)"` both fail; `"1+2)"`
fails with `MismatchedParentheses` (a `Right` parenthesis with no matching
`Left` on the stack), while `"(1+2"` leaves its `Left` parenthesis on the
stack at end of input, drains it into the postfix output, and fails in the
evaluator with `InvalidExpression`. -/
theorem mismatched_paren_errors :
    evaluate "1+2)" = .error EvalError.MismatchedParentheses ∧
    evaluate "(1+2" = .error EvalError.InvalidExpression := by
  constructor <;>
    simp +decide [evaluate, tokenise, tokenise_go, tokenise_step, push_non_number,
      empty_number_buffer, parseF32, isF32Lexeme, isBufferChar, digitsToNat, shunting_yard,
      sy_process, sy_step, popWhile, popUntilLeft, shouldPop, evaluate_rpn,
      rpn_go, rpn_step, applyOp, fadd, fsub, fmul, fdiv, fpow, F32.neg,
      Operator.precedence, Operator.associativity, Associativity.is_left,
      Associativity.is_right, except_bind_ok, except_bind_error]

/-- C3: when the RPN evaluator meets an `Operator` token, the first value
popped (the head of the stack) is the `right` operand, the second is the
`left` operand, and `left ∘ right` is pushed; consequently
`evaluate "5-3" = 2` and `evaluate "8/2" = 4`, not the reversed `-2` and
`1/4`. -/
theorem rpn_operand_order :
    (∀ (operator : Operator) (right left : F32) (rest : List F32),
        rpn_step (right :: left :: rest) (Token.Operator operator) =
          .ok (applyOp operator left right :: rest)) ∧
    evaluate "5-3" = .ok (F32.finite 2) ∧
    evaluate "8/2" = .ok (F32.finite 4) ∧
    F32.finite 2 ≠ F32.finite (-2) ∧
    F32.finite 4 ≠ F32.finite (1 / 4) := by
  refine ⟨fun _ _ _ _ => rfl, ?_, ?_, by norm_num, by norm_num⟩ <;>
    (simp +decide [evaluate, tokenise, tokenise_go, tokenise_step, push_non_number,
      empty_number_buffer, parseF32, isF32Lexeme, isBufferChar, digitsToNat, shunting_yard,
      sy_process, sy_step, popWhile, popUntilLeft, shouldPop, evaluate_rpn,
      rpn_go, rpn_step, applyOp, fadd, fsub, fmul, fdiv, fpow, F32.neg,
      Operator.precedence, Operator.associativity, Associativity.is_left,
      Associativity.is_right, except_bind_ok, except_bind_error] <;> norm_num)

/-- C9: division by zero is not an error: `evaluate "1/0"` succeeds and
returns `+∞`, per the IEEE-754 rule that a positive finite value divided by
zero is positive infinity. -/
theorem div_by_zero_posinf : evaluate "1/0" = .ok F32.posInf := by
  simp +decide [evaluate, tokenise, tokenise_go, tokenise_step, push_non_number,
    empty_number_buffer, parseF32, isF32Lexeme, isBufferChar, digitsToNat, shunting_yard,
    sy_process, sy_step, popWhile, popUntilLeft, shouldPop, evaluate_rpn,
    rpn_go, rpn_step, applyOp, fadd, fsub, fmul, fdiv, fpow, F32.neg,
    except_bind_ok, except_bind_error]

/-- C4: for an `Operator` token `o` the converter pops to the output exactly
the maximal stack prefix of `Operator` tokens `t` satisfying
`(o left-associative ∧ precedence o ≤ precedence t) ∨ (o right-associative ∧
precedence o < precedence t)` (the `shouldPop` condition, read off the
source), stopping at the first top failing it or not an `Operator`, then
pushes `o`; a `Number` goes directly to the output and a `Parenthesis Left`
is pushed onto the stack. -/
theorem sy_operator_rule :
    (∀ (operator : Operator) (output stack : List Token),
        sy_step (Token.Operator operator) output stack =
          .ok (output ++ (popWhile operator stack).1,
               Token.Operator operator :: (popWhile operator stack).2)) ∧
    (∀ (operator : Operator) (stack : List Token),
        (popWhile operator stack).1 ++ (popWhile operator stack).2 = stack) ∧
    (∀ (operator : Operator) (stack : List Token) (t : Token),
        t ∈ (popWhile operator stack).1 →
        ∃ top, t = Token.Operator top ∧
          ((operator.associativity.is_left = true ∧ operator.precedence ≤ top.precedence) ∨
           (operator.associativity.is_right = true ∧ operator.precedence < top.precedence))) ∧
    (∀ (operator : Operator) (stack : List Token) (top : Operator) (rest : List Token),
        (popWhile operator stack).2 = Token.Operator top :: rest →
        ¬((operator.associativity.is_left = true ∧ operator.precedence ≤ top.precedence) ∨
          (operator.associativity.is_right = true ∧ operator.precedence < top.precedence))) ∧
    (∀ (n : F32) (output stack : List Token),
        sy_step (Token.Number n) output stack = .ok (output ++ [Token.Number n], stack)) ∧
    (∀ (output stack : List Token),
        sy_step (Token.Parenthesis .Left) output stack =
          .ok (output, Token.Parenthesis .Left :: stack)) := by
  have hcond : ∀ operator top : Operator, shouldPop operator top = true ↔
      ((operator.associativity.is_left = true ∧ operator.precedence ≤ top.precedence) ∨
       (operator.associativity.is_right = true ∧ operator.precedence < top.precedence)) := by
    intro operator top
    simp [shouldPop, Bool.or_eq_true, Bool.and_eq_true]
  refine ⟨fun _ _ _ => rfl, popWhile_append, ?_, ?_, fun _ _ _ => rfl, fun _ _ => rfl⟩
  · intro operator stack t ht
    obtain ⟨top, h1, h2⟩ := popWhile_popped operator stack t ht
    exact ⟨top, h1, (hcond operator top).mp h2⟩
  · intro operator stack top rest h
    have := popWhile_stop operator stack top rest h
    rw [← hcond operator top]
    simp [this]

/-- C4 witness: the pieces of `sy_operator_rule` applied at concrete
inputs — `Multiply` over `Add` is popped for a left-associative incoming
`Add` of lower precedence, and the popped token is certified an operator
satisfying the condition. -/
theorem sy_operator_rule_witness :
    sy_step (Token.Operator Operator.Add) [] [Token.Operator Operator.Multiply] =
      .ok ([Token.Operator Operator.Multiply], [Token.Operator Operator.Add]) ∧
    ∃ top, Token.Operator Operator.Multiply = Token.Operator top ∧
      ((Operator.Add.associativity.is_left = true ∧
          Operator.Add.precedence ≤ top.precedence) ∨
       (Operator.Add.associativity.is_right = true ∧
          Operator.Add.precedence < top.precedence)) := by
  constructor
  · have h := sy_operator_rule.1 Operator.Add [] [Token.Operator Operator.Multiply]
    simpa using h
  · exact sy_operator_rule.2.2.1 Operator.Add [Token.Operator Operator.Multiply]
      (Token.Operator Operator.Multiply) (by decide)

/-- C10: the shunting-yard operator stack only ever holds `Operator` tokens
and `Parenthesis Left` tokens: each step preserves the invariant, and the
stack reached after processing any input prefix from the initial state
satisfies it — hence every token drained from the stack at end of input is
an `Operator` or a `Parenthesis Left`. -/
theorem sy_stack_invariant :
    (∀ (token : Token) (output stack output' stack' : List Token),
        StackOK stack → sy_step token output stack = .ok (output', stack') →
        StackOK stack') ∧
    (∀ (input output' stack' : List Token),
        sy_process input [] [] = .ok (output', stack') → StackOK stack') := by
  refine ⟨fun _ _ _ _ _ hok h => sy_step_preserves hok h, fun input output' stack' h => ?_⟩
  exact sy_process_preserves input (fun t ht => absurd ht (List.not_mem_nil t)) h

/-- C10 witness: the invariant theorem applied to the concrete run on
`[Operator Add, Parenthesis Left]`, whose final stack is
`[Parenthesis Left, Operator Add]`. -/
theorem sy_stack_invariant_witness :
    StackOK [Token.Parenthesis Parenthesis.Left, Token.Operator Operator.Add] :=
  sy_stack_invariant.2 [Token.Operator Operator.Add, Token.Parenthesis Parenthesis.Left]
    [] [Token.Parenthesis Parenthesis.Left, Token.Operator Operator.Add] rfl

/-- C1, counterexample: the scanner does NOT flush the numeric buffer on
skipped characters — on `' '` the `_ => ()` arm does nothing — so `"1 2"`
scans to the single token `Number 12` (not `Number 1, Number 2`) and
evaluates to `12` (not `2`). -/
theorem scanner_skip_counterexample :
    tokenise "1 2" = .ok [Token.Number (F32.finite 12)] ∧
    ([Token.Number (F32.finite 12)] : List Token) ≠
      [Token.Number (F32.finite 1), Token.Number (F32.finite 2)] ∧
    evaluate "1 2" = .ok (F32.finite 12) ∧
    F32.finite 12 ≠ F32.finite 2 := by
  refine ⟨?_, by norm_num, ?_, by norm_num⟩ <;>
    (simp +decide [evaluate, tokenise, tokenise_go, tokenise_step, push_non_number,
      empty_number_buffer, parseF32, isF32Lexeme, isBufferChar, digitsToNat, shunting_yard,
      sy_process, sy_step, popWhile, popUntilLeft, shouldPop, evaluate_rpn,
      rpn_go, rpn_step, applyOp, except_bind_ok, except_bind_error] <;> norm_num)

/-- C1 (amended): the numeric buffer is flushed as a `Number` token before
the symbol's token exactly when the character is a recognised
operator/parenthesis symbol (and at end of input); a character that is
skipped — such as whitespace — leaves both the output and the buffer
untouched, so `"1 2"` scans to the single token `Number 12` and (the final
stack holding that one value) evaluates to `12`. -/
theorem scanner_flush_only_on_symbols :
    (∀ (tokens : List Token) (buf : List Char) (c : Char),
        isBufferChar c = false → symToken c = none →
        tokenise_step tokens buf c = .ok (tokens, buf)) ∧
    (∀ (tokens : List Token) (buf : List Char) (c : Char) (t : Token) (q : ℚ),
        symToken c = some t → parseF32 buf = some q →
        tokenise_step tokens buf c = .ok (tokens ++ [Token.Number (F32.finite q), t], [])) ∧
    (∀ (tokens : List Token) (c : Char) (t : Token),
        symToken c = some t → tokenise_step tokens [] c = .ok (tokens ++ [t], [])) ∧
    tokenise "1 2" = .ok [Token.Number (F32.finite 12)] ∧
    evaluate "1 2" = .ok (F32.finite 12) := by
  refine ⟨fun tokens buf c h1 h2 => tokenise_step_skip h1 h2 tokens buf,
          fun tokens buf c t q h1 h2 => tokenise_step_symbol h1 tokens h2,
          fun tokens c t h => tokenise_step_symbol_nil h tokens, ?_, ?_⟩ <;>
    (simp +decide [evaluate, tokenise, tokenise_go, tokenise_step, push_non_number,
      empty_number_buffer, parseF32, isF32Lexeme, isBufferChar, digitsToNat, shunting_yard,
      sy_process, sy_step, popWhile, popUntilLeft, shouldPop, evaluate_rpn,
      rpn_go, rpn_step, applyOp, except_bind_ok, except_bind_error] <;> norm_num)

/-- C1 witness: the amended flush rule applied at concrete inputs — a space
after a buffered `'1'` flushes nothing, while a `'+'` flushes `Number 1`
before the `Add` token. -/
theorem scanner_flush_only_on_symbols_witness :
    tokenise_step [] ['1'] ' ' = .ok ([], ['1']) ∧
    tokenise_step [] ['1'] '+' =
      .ok ([Token.Number (F32.finite 1), Token.Operator Operator.Add], []) := by
  constructor
  · exact scanner_flush_only_on_symbols.1 [] ['1'] ' ' (by decide) (by decide)
  · have h := scanner_flush_only_on_symbols.2.1 [] ['1'] '+' (Token.Operator Operator.Add) 1
      (by decide) (by simp +decide [parseF32, isF32Lexeme, digitsToNat])
    simpa using h

/-- C7: the RPN evaluator fails exactly when the spec's failure condition
holds — running the stack-height count (`specRpnCount`), failure is an
underflow at an operator or a parenthesis token (`none`) or an empty final
stack (`some 0`) — every failure carries `InvalidExpression`, and in every
other case it succeeds; in particular `evaluate "1+"` and `evaluate ""`
fail with `InvalidExpression`. -/
theorem rpn_error_characterisation :
    (∀ tokens : List Token,
        (∃ e, evaluate_rpn tokens = .error e) ↔
          (specRpnCount tokens 0 = none ∨ specRpnCount tokens 0 = some 0)) ∧
    (∀ (tokens : List Token) (e : EvalError),
        evaluate_rpn tokens = .error e → e = EvalError.InvalidExpression) ∧
    evaluate "1+" = .error EvalError.InvalidExpression ∧
    evaluate "" = .error EvalError.InvalidExpression := by
  have hchar : ∀ tokens : List Token,
      (∃ e, evaluate_rpn tokens = .error e) ↔
        (specRpnCount tokens 0 = none ∨ specRpnCount tokens 0 = some 0) := by
    intro tokens
    have hcount := rpn_go_count tokens []
    simp only [List.length_nil] at hcount
    constructor
    · rintro ⟨e, he⟩
      cases hc : specRpnCount tokens 0 with
      | none => exact Or.inl rfl
      | some n =>
          obtain ⟨s, hs, hlen⟩ := hcount.2 n hc
          simp only [evaluate_rpn, hs, except_bind_ok] at he
          cases s with
          | nil =>
              right
              simp only [List.length_nil] at hlen
              subst hlen
              rfl
          | cons top rest => simp at he
    · intro h
      rcases h with h | h
      · have herr := hcount.1 h
        exact ⟨EvalError.InvalidExpression, by
          simp only [evaluate_rpn, herr, except_bind_error]⟩
      · obtain ⟨s, hs, hlen⟩ := hcount.2 0 h
        have hnil : s = [] := List.length_eq_zero.mp hlen
        subst hnil
        exact ⟨EvalError.InvalidExpression, by
          simp only [evaluate_rpn, hs, except_bind_ok]⟩
  have herrty : ∀ (tokens : List Token) (e : EvalError),
      evaluate_rpn tokens = .error e → e = EvalError.InvalidExpression := by
    intro tokens e he
    cases hgo : rpn_go tokens [] with
    | error e' =>
        simp only [evaluate_rpn, hgo, except_bind_error, Except.error.injEq] at he
        rw [← he]
        exact rpn_go_error_invalid tokens [] e' hgo
    | ok s =>
        simp only [evaluate_rpn, hgo, except_bind_ok] at he
        cases s with
        | nil => simpa using he.symm
        | cons top rest => simp at he
  refine ⟨hchar, herrty, ?_, ?_⟩ <;>
    (simp +decide [evaluate, tokenise, tokenise_go, tokenise_step, push_non_number,
      empty_number_buffer, parseF32, isF32Lexeme, isBufferChar, digitsToNat, shunting_yard,
      sy_process, sy_step, popWhile, popUntilLeft, shouldPop, evaluate_rpn,
      rpn_go, rpn_step, applyOp, except_bind_ok, except_bind_error] <;> norm_num)

/-- C7 witness: the characterisation applied to the concrete postfix input
`[Operator Add]`, which fails (stack underflow), so the spec condition must
hold there. -/
theorem rpn_error_characterisation_witness :
    specRpnCount [Token.Operator Operator.Add] 0 = none ∨
      specRpnCount [Token.Operator Operator.Add] 0 = some 0 :=
  (rpn_error_characterisation.1 [Token.Operator Operator.Add]).mp
    ⟨EvalError.InvalidExpression, rfl⟩

/-- C8, counterexample: `evaluate "1,5"` does not equal `evaluate "1.5"`
(which is `1.5`); the lexeme `"1,5"` is buffered whole but rejected by the
scalar parser, so it fails with `InvalidNumber` — `','` is not accepted as
a decimal separator. -/
theorem comma_separator_counterexample :
    evaluate "1,5" = .error EvalError.InvalidNumber ∧
    (Except.error EvalError.InvalidNumber : Except EvalError F32) ≠
      .ok (F32.finite (3 / 2)) := by
  refine ⟨?_, by simp⟩
  simp +decide [evaluate, tokenise, tokenise_go, tokenise_step, push_non_number,
    empty_number_buffer, parseF32, isF32Lexeme, isBufferChar, digitsToNat,
    except_bind_ok, except_bind_error]

/-- C8 (amended): `','` is accumulated into the numeric lexeme buffer
exactly like `'.'`, but the scalar parser accepts only `'.'` as decimal
separator, so every lexeme containing `','` fails with `InvalidNumber`:
`evaluate "1,5"` and `evaluate "1,2,3"` both fail with `InvalidNumber`,
while `evaluate "1.5"` is `1.5`. -/
theorem comma_lexeme_invalid :
    (∀ buf : List Char, ',' ∈ buf → parseF32 buf = none) ∧
    evaluate "1,5" = .error EvalError.InvalidNumber ∧
    evaluate "1,2,3" = .error EvalError.InvalidNumber ∧
    evaluate "1.5" = .ok (F32.finite (3 / 2)) := by
  refine ⟨?_, ?_, ?_, ?_⟩
  · intro buf hmem
    have h : buf.all (fun c => c.isDigit || c = '.') = false := by
      simp only [List.all_eq_false]
      exact ⟨',', hmem, by decide⟩
    simp [parseF32, isF32Lexeme, h]
  all_goals
    (simp +decide [evaluate, tokenise, tokenise_go, tokenise_step, push_non_number,
      empty_number_buffer, parseF32, isF32Lexeme, isBufferChar, digitsToNat, shunting_yard,
      sy_process, sy_step, popWhile, popUntilLeft, shouldPop, evaluate_rpn,
      rpn_go, rpn_step, applyOp, except_bind_ok, except_bind_error] <;> norm_num)

/-- C8 witness: the amended rule applied to the concrete lexeme `"1,5"`. -/
theorem comma_lexeme_invalid_witness :
    parseF32 [',', '5'] = none :=
  comma_lexeme_invalid.1 [',', '5'] (by decide)

/-- C5: for all literal numerals `a`, `b`, `c`,
`evaluate "a+b*c" = evaluate "a+(b*c)"` — both convert to the same postfix
sequence `a b c * +` because multiplication (precedence 2) binds tighter
than addition (precedence 1); moreover the common value is
`a + (b * c)`. -/
theorem precedence_law (a b c : String) (qa qb qc : ℚ)
    (ha : parseF32 a.toList = some qa) (hb : parseF32 b.toList = some qb)
    (hc : parseF32 c.toList = some qc) :
    evaluate (a ++ "+" ++ b ++ "*" ++ c) = evaluate (a ++ "+(" ++ b ++ "*" ++ c ++ ")") ∧
    evaluate (a ++ "+" ++ b ++ "*" ++ c) =
      .ok (fadd (F32.finite qa) (fmul (F32.finite qb) (F32.finite qc))) := by
  have hplus : symToken '+' = some (Token.Operator Operator.Add) := rfl
  have hstar : symToken '*' = some (Token.Operator Operator.Multiply) := rfl
  have hlpar : symToken '(' = some (Token.Parenthesis Parenthesis.Left) := rfl
  have hrpar : symToken ')' = some (Token.Parenthesis Parenthesis.Right) := rfl
  have hcne : c.toList ≠ [] := by
    intro hnil
    rw [hnil] at hc
    simp [parseF32, isF32Lexeme] at hc
  have htok1 : tokenise (a ++ "+" ++ b ++ "*" ++ c) = .ok
      [Token.Number (F32.finite qa), Token.Operator .Add, Token.Number (F32.finite qb),
       Token.Operator .Multiply, Token.Number (F32.finite qc)] := by
    have hsplit : (a ++ "+" ++ b ++ "*" ++ c).toList
        = a.toList ++ ('+' :: (b.toList ++ ('*' :: c.toList))) := by
      simp [toList_append]
    simp only [tokenise, hsplit]
    rw [tokenise_go_lit ha, tokenise_go_sym hplus ha, tokenise_go_lit hb,
      tokenise_go_sym hstar hb, tokenise_go_final hc]
    have hc' := hc
    have hcne' := hcne
    simp only [String.toList] at hc' hcne'
    simp [except_bind_ok, empty_number_buffer, hcne', hc']
  have htok2 : tokenise (a ++ "+(" ++ b ++ "*" ++ c ++ ")") = .ok
      [Token.Number (F32.finite qa), Token.Operator .Add, Token.Parenthesis .Left,
       Token.Number (F32.finite qb), Token.Operator .Multiply, Token.Number (F32.finite qc),
       Token.Parenthesis .Right] := by
    have hsplit : (a ++ "+(" ++ b ++ "*" ++ c ++ ")").toList
        = a.toList ++ ('+' :: '(' :: (b.toList ++ ('*' :: (c.toList ++ [')'])))) := by
      simp [toList_append]
    simp only [tokenise, hsplit]
    rw [tokenise_go_lit ha, tokenise_go_sym hplus ha, tokenise_go_sym_nil hlpar,
      tokenise_go_lit hb, tokenise_go_sym hstar hb, tokenise_go_lit hc,
      tokenise_go_sym hrpar hc]
    simp [tokenise_go, except_bind_ok, empty_number_buffer]
  have hsy1 : shunting_yard
      [Token.Number (F32.finite qa), Token.Operator .Add, Token.Number (F32.finite qb),
       Token.Operator .Multiply, Token.Number (F32.finite qc)] =
      .ok [Token.Number (F32.finite qa), Token.Number (F32.finite qb),
           Token.Number (F32.finite qc), Token.Operator .Multiply, Token.Operator .Add] := rfl
  have hsy2 : shunting_yard
      [Token.Number (F32.finite qa), Token.Operator .Add, Token.Parenthesis .Left,
       Token.Number (F32.finite qb), Token.Operator .Multiply, Token.Number (F32.finite qc),
       Token.Parenthesis .Right] =
      .ok [Token.Number (F32.finite qa), Token.Number (F32.finite qb),
           Token.Number (F32.finite qc), Token.Operator .Multiply, Token.Operator .Add] := rfl
  have hrpn : evaluate_rpn
      [Token.Number (F32.finite qa), Token.Number (F32.finite qb),
       Token.Number (F32.finite qc), Token.Operator .Multiply, Token.Operator .Add] =
      .ok (fadd (F32.finite qa) (fmul (F32.finite qb) (F32.finite qc))) := rfl
  constructor
  · simp only [evaluate, htok1, htok2, except_bind_ok, hsy1, hsy2]
  · simp only [evaluate, htok1, except_bind_ok, hsy1, hrpn]

/-- C5 witness: the precedence law applied at the concrete numerals
`2`, `3`, `4`. -/
theorem precedence_law_witness :
    evaluate ("2" ++ "+" ++ "3" ++ "*" ++ "4") =
      evaluate ("2" ++ "+(" ++ "3" ++ "*" ++ "4" ++ ")") ∧
    evaluate ("2" ++ "+" ++ "3" ++ "*" ++ "4") =
      .ok (fadd (F32.finite 2) (fmul (F32.finite 3) (F32.finite 4))) :=
  precedence_law "2" "3" "4" 2 3 4
    (by simp +decide [parseF32, isF32Lexeme, digitsToNat])
    (by simp +decide [parseF32, isF32Lexeme, digitsToNat])
    (by simp +decide [parseF32, isF32Lexeme, digitsToNat])

/-- C6: for all literal numerals `a`, `b`, `c`,
`evaluate "a^b^c" = evaluate "a^(b^c)"` — the power operator is
right-associative (an incoming `^` does not pop an equal-precedence `^`),
so both convert to the postfix sequence `a b c ^ ^`; in particular
`evaluate "2^3^2" = 512`, not `64`. -/
theorem power_right_assoc (a b c : String) (qa qb qc : ℚ)
    (ha : parseF32 a.toList = some qa) (hb : parseF32 b.toList = some qb)
    (hc : parseF32 c.toList = some qc) :
    evaluate (a ++ "^" ++ b ++ "^" ++ c) = evaluate (a ++ "^(" ++ b ++ "^" ++ c ++ ")") ∧
    evaluate (a ++ "^" ++ b ++ "^" ++ c) =
      .ok (fpow (F32.finite qa) (fpow (F32.finite qb) (F32.finite qc))) ∧
    evaluate "2^3^2" = .ok (F32.finite 512) ∧
    (Except.ok (F32.finite 512) : Except EvalError F32) ≠ .ok (F32.finite 64) := by
  have hpow : symToken '^' = some (Token.Operator Operator.Power) := rfl
  have hlpar : symToken '(' = some (Token.Parenthesis Parenthesis.Left) := rfl
  have hrpar : symToken ')' = some (Token.Parenthesis Parenthesis.Right) := rfl
  have hcne : c.toList ≠ [] := by
    intro hnil
    rw [hnil] at hc
    simp [parseF32, isF32Lexeme] at hc
  have htok1 : tokenise (a ++ "^" ++ b ++ "^" ++ c) = .ok
      [Token.Number (F32.finite qa), Token.Operator .Power, Token.Number (F32.finite qb),
       Token.Operator .Power, Token.Number (F32.finite qc)] := by
    have hsplit : (a ++ "^" ++ b ++ "^" ++ c).toList
        = a.toList ++ ('^' :: (b.toList ++ ('^' :: c.toList))) := by
      simp [toList_append]
    simp only [tokenise, hsplit]
    rw [tokenise_go_lit ha, tokenise_go_sym hpow ha, tokenise_go_lit hb,
      tokenise_go_sym hpow hb, tokenise_go_final hc]
    have hc' := hc
    have hcne' := hcne
    simp only [String.toList] at hc' hcne'
    simp [except_bind_ok, empty_number_buffer, hcne', hc']
  have htok2 : tokenise (a ++ "^(" ++ b ++ "^" ++ c ++ ")") = .ok
      [Token.Number (F32.finite qa), Token.Operator .Power, Token.Parenthesis .Left,
       Token.Number (F32.finite qb), Token.Operator .Power, Token.Number (F32.finite qc),
       Token.Parenthesis .Right] := by
    have hsplit : (a ++ "^(" ++ b ++ "^" ++ c ++ ")").toList
        = a.toList ++ ('^' :: '(' :: (b.toList ++ ('^' :: (c.toList ++ [')'])))) := by
      simp [toList_append]
    simp only [tokenise, hsplit]
    rw [tokenise_go_lit ha, tokenise_go_sym hpow ha, tokenise_go_sym_nil hlpar,
      tokenise_go_lit hb, tokenise_go_sym hpow hb, tokenise_go_lit hc,
      tokenise_go_sym hrpar hc]
    simp [tokenise_go, except_bind_ok, empty_number_buffer]
  have hsy1 : shunting_yard
      [Token.Number (F32.finite qa), Token.Operator .Power, Token.Number (F32.finite qb),
       Token.Operator .Power, Token.Number (F32.finite qc)] =
      .ok [Token.Number (F32.finite qa), Token.Number (F32.finite qb),
           Token.Number (F32.finite qc), Token.Operator .Power, Token.Operator .Power] := rfl
  have hsy2 : shunting_yard
      [Token.Number (F32.finite qa), Token.Operator .Power, Token.Parenthesis .Left,
       Token.Number (F32.finite qb), Token.Operator .Power, Token.Number (F32.finite qc),
       Token.Parenthesis .Right] =
      .ok [Token.Number (F32.finite qa), Token.Number (F32.finite qb),
           Token.Number (F32.finite qc), Token.Operator .Power, Token.Operator .Power] := rfl
  have hrpn : evaluate_rpn
      [Token.Number (F32.finite qa), Token.Number (F32.finite qb),
       Token.Number (F32.finite qc), Token.Operator .Power, Token.Operator .Power] =
      .ok (fpow (F32.finite qa) (fpow (F32.finite qb) (F32.finite qc))) := rfl
  refine ⟨?_, ?_, ?_, by simp⟩
  · simp only [evaluate, htok1, htok2, except_bind_ok, hsy1, hsy2]
  · simp only [evaluate, htok1, except_bind_ok, hsy1, hrpn]
  · simp +decide [evaluate, tokenise, tokenise_go, tokenise_step, push_non_number,
      empty_number_buffer, parseF32, isF32Lexeme, isBufferChar, digitsToNat, shunting_yard,
      sy_process, sy_step, popWhile, popUntilLeft, shouldPop, evaluate_rpn,
      rpn_go, rpn_step, applyOp, fadd, fsub, fmul, fdiv, fpow, F32.neg,
      Operator.precedence, Operator.associativity, Associativity.is_left,
      Associativity.is_right, except_bind_ok, except_bind_error]

/-- C6 witness: the right-associativity law applied at the concrete
numerals `2`, `3`, `2`. -/
theorem power_right_assoc_witness :
    evaluate ("2" ++ "^" ++ "3" ++ "^" ++ "2") =
      evaluate ("2" ++ "^(" ++ "3" ++ "^" ++ "2" ++ ")") ∧
    evaluate ("2" ++ "^" ++ "3" ++ "^" ++ "2") =
      .ok (fpow (F32.finite 2) (fpow (F32.finite 3) (F32.finite 2))) :=
  ⟨(power_right_assoc "2" "3" "2" 2 3 2
      (by simp +decide [parseF32, isF32Lexeme, digitsToNat])
      (by simp +decide [parseF32, isF32Lexeme, digitsToNat])
      (by simp +decide [parseF32, isF32Lexeme, digitsToNat])).1,
   (power_right_assoc "2" "3" "2" 2 3 2
      (by simp +decide [parseF32, isF32Lexeme, digitsToNat])
      (by simp +decide [parseF32, isF32Lexeme, digitsToNat])
      (by simp +decide [parseF32, isF32Lexeme, digitsToNat])).2.1⟩

end Calculator
